import Mathlib

/-!
Verification of the content-aware file cache (`content_aware_cache.h/.cpp`).

The C++ engine state (entry map, LRU list, counters, type-priority table) is
embedded as an explicit `EngineState`; `shared_ptr<CacheEntry>` objects live in
an explicit heap of id-indexed entries so that a `CacheFile` handle can keep a
reference to an entry after it has been evicted from the map, exactly as the
C++ shared pointers do.  `size_t` arithmetic is `Nat` with explicit `% 2^64`.
Disk contents are a parameter `disk : String → Option (List Char)` (a file's
bytes, `none` when the path does not exist) together with success oracles for
stream opens.  The `float` priority-score computation is modelled once, exactly,
over `ℝ` (`calculatePriorityScore`); inside the engine operations the score
computed at a given instant is abstracted as a parameter
`sc : CacheEntry → ℚ`, since scores flow only into the stored
`priorityScore` field and into victim comparison, and the engine theorems
below hold for every such function, in particular for the real scorer.
-/

namespace ContentCache

/-- `size_t` modulus: 2^64. -/
def W : Nat := 2 ^ 64

/-- `size_t` wrap-around for additions and multiplications. -/
def wrap (n : Nat) : Nat := n % W

/-- `size_t` subtraction `a - b` (wraps modulo 2^64). -/
def sub64 (a b : Nat) : Nat := (a + (W - b % W)) % W

/-- Conversion of a signed value to `size_t` (two's complement reduction). -/
def toSizeT (i : Int) : Nat := (i % (W : Int)).toNat

/-- Association-list lookup; models `unordered_map::find`.  The list order
models the (unspecified) iteration order of the C++ `unordered_map`. -/
def alookup {α β : Type} [DecidableEq α] : List (α × β) → α → Option β
  | [], _ => none
  | p :: t, k => if p.1 = k then some p.2 else alookup t k

/-- Update the value stored under a key in place (no-op when absent). -/
def aupdate {α β : Type} [DecidableEq α] (m : List (α × β)) (k : α) (f : β → β) :
    List (α × β) :=
  m.map (fun p => if p.1 = k then (p.1, f p.2) else p)

/-- `unordered_map` insert-or-assign (`m[k] = v`); new keys are appended,
which fixes one concrete iteration order. -/
def ainsert {α β : Type} [DecidableEq α] (m : List (α × β)) (k : α) (v : β) :
    List (α × β) :=
  if (alookup m k).isSome then aupdate m k (fun _ => v) else m ++ [(k, v)]

/-- `unordered_map::erase`. -/
def aerase {α β : Type} [DecidableEq α] : List (α × β) → α → List (α × β)
  | [], _ => []
  | p :: t, k => if p.1 = k then aerase t k else p :: aerase t k

/-- Erase the first occurrence of an element from a list (models erasing the
node found through `lruMap`, which holds at most one node per path). -/
def lerase {α : Type} [DecidableEq α] : List α → α → List α
  | [], _ => []
  | a :: t, x => if a = x then t else a :: lerase t x

/-- `mode.find(c) != std::string::npos`: the mode string contains the
character. -/
def modeHas (mode : String) (c : Char) : Bool := mode.data.contains c

/-- Characters of a path after the last `/` (the filename). -/
def splitLast (sep : Char) (l : List Char) : List Char :=
  l.foldl (fun acc c => if c = sep then [] else acc ++ [c]) []

/-- The suffix of a filename starting at its last `.`, when one exists. -/
def lastDotSuffix : List Char → Option (List Char)
  | [] => none
  | c :: t =>
    match lastDotSuffix t with
    | some s => some s
    | none => if c = '.' then some (c :: t) else none

/-- `std::filesystem::path::extension().string()`: the substring of the
filename from its last dot; `.`, `..` and dot-initial filenames with no
further dot have no extension. -/
def extOf (p : String) : String :=
  let fname := splitLast '/' p.toList
  if fname = ['.'] ∨ fname = ['.', '.'] then ""
  else
    match fname with
    | [] => ""
    | _ :: rest =>
      match lastDotSuffix rest with
      | some s => String.mk s
      | none => ""

/-- `FLT_MAX` = (2^24 − 1) · 2^104, the initial value of `lowestScore` in
`findEntryForEviction`. -/
def floatMax : ℚ := 340282346638528859811704183484516925440

/-- One `CacheEntry` object: `FileMetadata` (path, extension, size — the
last-modified stamp is carried by no claim and is omitted), `AccessStats`
(count, last-accessed instant in seconds), the owned data buffer, and the
cached priority score. -/
structure CacheEntry where
  filePath : String
  fileType : String
  fileSize : Nat
  accessCount : Nat
  lastAccessed : Nat
  data : List Char
  priorityScore : ℚ
deriving DecidableEq

/-- Placeholder entry used for total heap lookups (never reached by handles
created through `openFile`). -/
def defaultEntry : CacheEntry :=
  { filePath := "", fileType := "", fileSize := 0, accessCount := 0,
    lastAccessed := 0, data := [], priorityScore := 0 }

/-- A `CacheFile` handle: the id of the entry object it holds a
`shared_ptr` to, the mode string, the cursor, and the dirty flag. -/
structure Handle where
  id : Nat
  mode : String
  position : Nat
  modified : Bool
deriving DecidableEq

/-- The `ContentAwareCache` engine state.  `heap` holds every live
`CacheEntry` object, keyed by an allocation id; `cacheMap` maps resident
paths to ids; `lruList` has the most recently touched path at the head. -/
structure EngineState where
  nextId : Nat
  heap : List (Nat × CacheEntry)
  maxCacheSize : Nat
  currentCacheSize : Nat
  cacheMap : List (String × Nat)
  lruList : List String
  cacheHits : Nat
  cacheMisses : Nat
  diskReads : Nat
  diskWrites : Nat
  fileTypePriorities : List (String × ℚ)
deriving DecidableEq

/-- The constructor's default type-priority table (float literals idealised
as the decimal rationals they denote). -/
def defaultFileTypePriorities : List (String × ℚ) :=
  [(".txt", 7/10), (".cfg", 9/10), (".conf", 9/10), (".ini", 9/10),
   (".log", 6/10), (".json", 8/10), (".xml", 8/10), (".cpp", 7/10),
   (".h", 7/10), (".c", 7/10), (".py", 7/10), (".jpg", 4/10),
   (".png", 4/10), (".pdf", 3/10), (".exe", 1/10), (".so", 1/10),
   (".dll", 1/10)]

/-- `ContentAwareCache(maxSize)`. -/
def emptyState (maxSize : Nat) : EngineState :=
  { nextId := 0, heap := [], maxCacheSize := maxSize, currentCacheSize := 0,
    cacheMap := [], lruList := [], cacheHits := 0, cacheMisses := 0,
    diskReads := 0, diskWrites := 0,
    fileTypePriorities := defaultFileTypePriorities }

/-- `getFileMetadata`: extension and size of the backing file; when the
filesystem probe throws (path absent) the size is reported as 0 (the
extension has already been extracted from the path at that point). -/
def getFileMetadata (disk : String → Option (List Char)) (path : String) :
    String × Nat :=
  match disk path with
  | some content => (extOf path, content.length)
  | none => (extOf path, 0)

/-- `updateLRU`: unlink the path's node if present, push it to the front. -/
def updateLRU (s : EngineState) (path : String) : EngineState :=
  { s with lruList := path :: lerase s.lruList path }

/-- `findEntryForEviction`: scan the entry map for the entry with
`priorityScore` strictly below the running minimum (initially `FLT_MAX`);
the LRU fallback fires only when no entry's score was below `FLT_MAX`. -/
def findEntryForEviction (s : EngineState) : String :=
  if s.cacheMap = [] then ""
  else
    let r := s.cacheMap.foldl
      (fun acc p =>
        let e := (alookup s.heap p.2).getD defaultEntry
        if e.priorityScore < acc.2 then (p.1, e.priorityScore) else acc)
      ("", floatMax)
    if r.1 = "" ∧ s.lruList ≠ [] then s.lruList.getLastD "" else r.1

/-- `evictFile`: subtract the entry's buffer length from the current size and
drop the path from the LRU structures and the map.  The entry object itself
stays alive for any handle that still holds it (the heap keeps it). -/
def evictFile (s : EngineState) (path : String) : EngineState :=
  match alookup s.cacheMap path with
  | none => s
  | some id =>
    let e := (alookup s.heap id).getD defaultEntry
    { s with currentCacheSize := sub64 s.currentCacheSize e.data.length,
             lruList := lerase s.lruList path,
             cacheMap := aerase s.cacheMap path }

/-- `updateEntryScore`: recompute the score of the map's entry under a path,
with `sc` standing for `calculatePriorityScore` at the current instant. -/
def rescore (sc : CacheEntry → ℚ) : CacheEntry → CacheEntry :=
  fun e => { e with priorityScore := sc e }

def updateEntryScore (sc : CacheEntry → ℚ) (s : EngineState) (path : String) :
    EngineState :=
  match alookup s.cacheMap path with
  | none => s
  | some id => { s with heap := aupdate s.heap id (rescore sc) }

/-- `updateAllScores`: recompute every resident entry's score. -/
def updateAllScores (sc : CacheEntry → ℚ) (s : EngineState) : EngineState :=
  s.cacheMap.foldl
    (fun st p => { st with heap := aupdate st.heap p.2 (rescore sc) })
    s

/-- The eviction loop of `makeRoomInCache`.  The fuel bounds the iterations:
every productive iteration removes one map entry, so `|cacheMap| + 1` units
are enough; a non-productive iteration (victim not resident) would loop
forever in the C++, and the model simply stops there. -/
def evictLoop : Nat → Nat → EngineState → EngineState
  | 0, _, s => s
  | fuel + 1, required, s =>
    if s.maxCacheSize < wrap (s.currentCacheSize + required) ∧ s.cacheMap ≠ []
    then
      if findEntryForEviction s = "" then s
      else evictLoop fuel required (evictFile s (findEntryForEviction s))
    else s

/-- The final step of `makeRoomInCache`: when eviction could not free
enough, enlarge `maxCacheSize` to exactly the needed total. -/
def enlargeIfNeeded (required : Nat) (s2 : EngineState) : EngineState :=
  if s2.maxCacheSize < wrap (s2.currentCacheSize + required) then
    { s2 with maxCacheSize := wrap (s2.currentCacheSize + required) }
  else s2

/-- `makeRoomInCache`: quick return when the request fits; otherwise refresh
all scores, evict until it fits or nothing is left, and finally enlarge
`maxCacheSize` when eviction could not free enough. -/
def makeRoomInCache (sc : CacheEntry → ℚ) (s : EngineState) (required : Nat) :
    EngineState :=
  if wrap (s.currentCacheSize + required) ≤ s.maxCacheSize then s
  else
    enlargeIfNeeded required
      (evictLoop (s.cacheMap.length + 1) required (updateAllScores sc s))

/-- The entry object built by `loadFileIntoCache`: metadata from the
probe, stats freshly constructed (count 0, last access now), the file's
bytes as the buffer, score still at its constructed 0. -/
def loadedEntry (disk : String → Option (List Char)) (now : Nat)
    (path : String) : CacheEntry :=
  { filePath := path, fileType := (getFileMetadata disk path).1,
    fileSize := (getFileMetadata disk path).2, accessCount := 0,
    lastAccessed := now, data := (disk path).getD [], priorityScore := 0 }

/-- The admission tail of `loadFileIntoCache`, applied to the state `s1`
left by `makeRoomInCache`: insert the freshly read entry, add its size,
touch the LRU, count the disk read, then store its initial score (the
final heap is written once; `updateLRU` touches only the LRU list). -/
def admitLoaded (sc : CacheEntry → ℚ) (now : Nat)
    (disk : String → Option (List Char)) (s1 : EngineState) (path : String) :
    EngineState :=
  { updateLRU
      { s1 with nextId := s1.nextId + 1,
                heap := (s1.nextId, loadedEntry disk now path) :: s1.heap,
                cacheMap := ainsert s1.cacheMap path s1.nextId,
                currentCacheSize := wrap (s1.currentCacheSize + (getFileMetadata disk path).2),
                diskReads := s1.diskReads + 1 } path
    with heap := aupdate ((s1.nextId, loadedEntry disk now path) :: s1.heap) s1.nextId (rescore sc) }

/-- `loadFileIntoCache`: probe metadata (fail on size 0), make room, read
the whole file (stream success is the `readOk` oracle), and admit the
entry. -/
def loadFileIntoCache (sc : CacheEntry → ℚ) (now : Nat)
    (disk : String → Option (List Char)) (readOk : String → Bool)
    (s : EngineState) (path : String) : Bool × EngineState :=
  if (getFileMetadata disk path).2 = 0 then (false, s)
  else if ¬ readOk path then
    (false, makeRoomInCache sc s (getFileMetadata disk path).2)
  else
    (true, admitLoaded sc now disk
      (makeRoomInCache sc s (getFileMetadata disk path).2) path)

/-- `openFile`.  Hit: count it, touch the LRU, return a fresh handle over the
existing entry.  Miss: count it; `NotFound` (modelled `none`) for a read
mode on an absent path; a mode containing `w` creates an empty entry; any
other mode loads the file, failing with `IoError` (`none`) when the load
fails. -/
def openFile (sc : CacheEntry → ℚ) (now : Nat)
    (disk : String → Option (List Char)) (readOk : String → Bool)
    (s : EngineState) (path mode : String) : Option Handle × EngineState :=
  match alookup s.cacheMap path with
  | some id =>
      (some { id := id, mode := mode, position := 0, modified := false },
       updateLRU { s with cacheHits := s.cacheHits + 1 } path)
  | none =>
    let s1 := { s with cacheMisses := s.cacheMisses + 1 }
    if modeHas mode 'r' ∧ disk path = none then (none, s1)
    else if modeHas mode 'w' then
      let md := getFileMetadata disk path
      let e : CacheEntry :=
        { filePath := path, fileType := md.1, fileSize := 0,
          accessCount := 0, lastAccessed := now, data := [],
          priorityScore := 0 }
      let id := s1.nextId
      let s2 := updateLRU
        { s1 with nextId := id + 1, heap := (id, e) :: s1.heap,
                  cacheMap := ainsert s1.cacheMap path id } path
      (some { id := id, mode := mode, position := 0, modified := false }, s2)
    else
      let r := loadFileIntoCache sc now disk readOk s1 path
      if r.1 then
        match alookup r.2.cacheMap path with
        | some id =>
            (some { id := id, mode := mode, position := 0, modified := false },
             r.2)
        | none => (none, r.2)
      else (none, r.2)

/-- `CacheFile::read`: 0 items without read permission; otherwise copy
`min(size·count, remaining)` bytes forward from the cursor and return the
whole-item count `bytesCopied / size` — a division the code performs with no
guard, so `size = 0` is undefined behaviour, modelled as `none`. -/
def fileRead (s : EngineState) (h : Handle) (size count : Nat) :
    Option (Nat × Handle) :=
  if ¬ modeHas h.mode 'r' then some (0, h)
  else
    let e := (alookup s.heap h.id).getD defaultEntry
    let bytesToRead := wrap (size * count)
    let bytesAvailable := sub64 e.data.length h.position
    let bytesToCopy := min bytesToRead bytesAvailable
    let h2 := if 0 < bytesToCopy
      then { h with position := wrap (h.position + bytesToCopy) } else h
    if size = 0 then none else some (bytesToCopy / size, h2)

/-- `memcpy(dst + pos, src, src.length)` on a buffer of length at least
`pos + src.length`. -/
def memcpyAt (dst : List Char) (pos : Nat) (src : List Char) : List Char :=
  dst.take pos ++ src ++ dst.drop (pos + src.length)

def zeroChar : Char := Char.ofNat 0

/-- Result of `CacheFile::write`: the returned item count, the mutated
handle, and the engine state after any `makeRoomInCache` and size
accounting. -/
structure WriteResult where
  ret : Nat
  handle : Handle
  state : EngineState
deriving DecidableEq

/-- The growing branch of `CacheFile::write`: with the cursor (after any
append snap) at `position` and the buffer's pre-grow length `oldSize`, call
`makeRoomInCache` with the growth, resize the entry's buffer to
`newSize = position + bytesToWrite` (zero-filling the gap, exactly what
`vector::resize` does), add the growth to `currentCacheSize`, copy the
bytes in at `position`, advance the cursor and set the dirty flag. -/
def fileWriteGrow (sc : CacheEntry → ℚ) (s : EngineState) (h : Handle)
    (buf : List Char) (count position oldSize bytesToWrite : Nat) :
    WriteResult :=
  let newSize := wrap (position + bytesToWrite)
  let s1 := makeRoomInCache sc s (sub64 newSize oldSize)
  let e1 := (alookup s1.heap h.id).getD defaultEntry
  let grown := e1.data ++ List.replicate (newSize - e1.data.length) zeroChar
  let e3 := { e1 with data := memcpyAt grown position (buf.take bytesToWrite) }
  let s2a := { s1 with heap := aupdate s1.heap h.id (fun _ => e3) }
  let s2 := { s2a with currentCacheSize := wrap (s1.currentCacheSize + sub64 newSize oldSize) }
  ⟨count,
   { h with position := wrap (position + bytesToWrite), modified := true },
   s2⟩

/-- The in-place branch of `CacheFile::write`: copy the bytes over the
existing buffer at `position`, advance the cursor, set the dirty flag. -/
def fileWriteNoGrow (s : EngineState) (h : Handle) (buf : List Char)
    (count position : Nat) (e : CacheEntry) (bytesToWrite : Nat) :
    WriteResult :=
  let e3 := { e with data := memcpyAt e.data position (buf.take bytesToWrite) }
  let s2 := { s with heap := aupdate s.heap h.id (fun _ => e3) }
  ⟨count,
   { h with position := wrap (position + bytesToWrite), modified := true },
   s2⟩

/-- `CacheFile::write`: 0 items without `w`/`a` permission; `a` snaps the
cursor to the end; a write past the end takes the growing branch,
otherwise the bytes are copied over the existing buffer. -/
def fileWrite (sc : CacheEntry → ℚ) (s : EngineState) (h : Handle)
    (buf : List Char) (size count : Nat) : WriteResult :=
  if ¬ (modeHas h.mode 'w' ∨ modeHas h.mode 'a') then ⟨0, h, s⟩
  else
    let e := (alookup s.heap h.id).getD defaultEntry
    let bytesToWrite := wrap (size * count)
    let position :=
      if modeHas h.mode 'a' ∧ h.position ≠ e.data.length
      then e.data.length else h.position
    if e.data.length < wrap (position + bytesToWrite) then
      fileWriteGrow sc s h buf count position e.data.length bytesToWrite
    else
      fileWriteNoGrow s h buf count position e bytesToWrite

/-- The final bounds check of `CacheFile::seek`: a computed `size_t` target
past the buffer's end is rejected with −1 and an untouched cursor;
otherwise the cursor moves and 0 is returned. -/
def seekTo (s : EngineState) (h : Handle) (np : Nat) : Int × Handle :=
  if ((alookup s.heap h.id).getD defaultEntry).data.length < np then (-1, h)
  else (0, { h with position := np })

/-- `CacheFile::seek` with the usual origin encoding `SEEK_SET = 0`,
`SEEK_CUR = 1`, `SEEK_END = 2`; the target is computed in `size_t`
arithmetic (so a negative mathematical target wraps to a huge unsigned
one) and checked by `seekTo`; an unknown origin returns −1 directly. -/
def fileSeek (s : EngineState) (h : Handle) (offset : Int) (origin : Nat) :
    Int × Handle :=
  if origin = 0 then seekTo s h (toSizeT offset)
  else if origin = 1 then seekTo s h (toSizeT ((h.position : Int) + offset))
  else if origin = 2 then
    seekTo s h
      (toSizeT ((((alookup s.heap h.id).getD defaultEntry).data.length : Int) +
        offset))
  else (-1, h)

/-- The stats bump of `~CacheFile`: increment the entry's access count and
set its last-accessed instant. -/
def touchStats (now : Nat) : CacheEntry → CacheEntry :=
  fun e => { e with accessCount := e.accessCount + 1, lastAccessed := now }

/-- The `CacheFile::flush` call of a dirty handle's destructor: write the
entry's buffer to its backing path, counting the disk write on success
(oracle `diskOk`). -/
def bumpIfFlushed (diskOk : String → Bool) (s : EngineState) (h : Handle) :
    EngineState :=
  if h.modified then
    if diskOk (((alookup s.heap h.id).getD defaultEntry).filePath)
    then { s with diskWrites := s.diskWrites + 1 } else s
  else s

/-- The engine state after a handle destructor's flush and stats bump. -/
def touchedState (now : Nat) (diskOk : String → Bool) (s : EngineState)
    (h : Handle) : EngineState :=
  { bumpIfFlushed diskOk s h with
      heap := aupdate (bumpIfFlushed diskOk s h).heap h.id (touchStats now) }

/-- `~CacheFile` / `closeFile`: a dirty handle first flushes the entry's
buffer to its backing path, then the entry's access count and
last-accessed instant are bumped and the map's entry under the entry's
path (read back from the touched entry object) is rescored. -/
def closeFile (sc : CacheEntry → ℚ) (now : Nat) (diskOk : String → Bool)
    (s : EngineState) (h : Handle) : EngineState :=
  updateEntryScore sc (touchedState now diskOk s h)
    ((alookup (touchedState now diskOk s h).heap h.id).getD
      defaultEntry).filePath

/-- `ContentAwareCache::flush`: write every resident entry's buffer to its
backing path, counting each successful write. -/
def flushCache (diskOk : String → Bool) (s : EngineState) : EngineState :=
  s.cacheMap.foldl
    (fun st p =>
      if diskOk ((alookup st.heap p.2).getD defaultEntry).filePath
      then { st with diskWrites := st.diskWrites + 1 } else st)
    s

/-- The extension normalisation of `setFileTypePriority`: prefix a dot when
one is missing (nothing else — in particular no lowercasing). -/
def normExt (extension : String) : String :=
  if extension.isEmpty then extension
  else if extension.front = '.' then extension
  else "." ++ extension

/-- `setFileTypePriority`: store the clamped value under the dot-prefixed
extension and rescore the resident entries whose `fileType` equals it. -/
def rescoreIfType (sc : CacheEntry → ℚ) (ext : String) :
    CacheEntry → CacheEntry :=
  fun e => if e.fileType = ext then { e with priorityScore := sc e } else e

def setFileTypePriority (sc : CacheEntry → ℚ) (s : EngineState)
    (extension : String) (priority : ℚ) : EngineState :=
  let ext := normExt extension
  let table := ainsert s.fileTypePriorities ext (max 0 (min 1 priority))
  let s1 := { s with fileTypePriorities := table }
  s1.cacheMap.foldl
    (fun st p => { st with heap := aupdate st.heap p.2 (rescoreIfType sc ext) })
    s1

/-- Sum of `data.length` over the resident entries (the entry map). -/
def sumResidentLen (s : EngineState) : Nat :=
  (s.cacheMap.map
    (fun p => ((alookup s.heap p.2).getD defaultEntry).data.length)).sum

/-- A score oracle standing for some fixed output of the float scorer. -/
def zeroScore : CacheEntry → ℚ := fun _ => 0

/-- A filesystem with no files. -/
def noDisk : String → Option (List Char) := fun _ => none

/-- A stream-success oracle on which every open and write succeeds. -/
def allOk : String → Bool := fun _ => true

/-- One public operation of the engine, carrying the ambient data (clock
instant, disk contents, stream-success oracles) and, where the C++ calls
`calculatePriorityScore`, the score function `sc` captured at that moment. -/
inductive Op where
  | openOp (sc : CacheEntry → ℚ) (now : Nat)
      (disk : String → Option (List Char)) (readOk : String → Bool)
      (path mode : String)
  | closeOp (sc : CacheEntry → ℚ) (now : Nat) (diskOk : String → Bool)
      (h : Handle)
  | writeOp (sc : CacheEntry → ℚ) (h : Handle) (buf : List Char)
      (size count : Nat)
  | evictOp (path : String)
  | flushOp (diskOk : String → Bool)
  | setPrioOp (sc : CacheEntry → ℚ) (extension : String) (priority : ℚ)

/-- Whether an operation is a handle write. -/
def Op.isWriteOp : Op → Bool
  | .writeOp _ _ _ _ _ => true
  | _ => false

/-- Apply one operation to the engine state (results are discarded). -/
def stepOp (s : EngineState) : Op → EngineState
  | .openOp sc now disk readOk path mode =>
      (openFile sc now disk readOk s path mode).2
  | .closeOp sc now diskOk h => closeFile sc now diskOk s h
  | .writeOp sc h buf size count => (fileWrite sc s h buf size count).state
  | .evictOp path => evictFile s path
  | .flushOp diskOk => flushCache diskOk s
  | .setPrioOp sc extension priority =>
      setFileTypePriority sc s extension priority

/-- Run a sequence of operations. -/
def runOps (s : EngineState) (ops : List Op) : EngineState := ops.foldl stepOp s

/-- The metadata-size invariant: every resident entry's `metadata.fileSize`
equals its buffer length. -/
def MetaInv (s : EngineState) : Prop :=
  ∀ p ∈ s.cacheMap, ∀ e, alookup s.heap p.2 = some e →
    e.fileSize = e.data.length

/-- Two heaps agree on the size-relevant projection (`fileSize` and `data`)
of every object. -/
def sizeShape (m m2 : List (Nat × CacheEntry)) : Prop :=
  ∀ id, (alookup m2 id).map (fun e => (e.fileSize, e.data)) =
        (alookup m id).map (fun e => (e.fileSize, e.data))

/-- Number of entries of the map whose backing write succeeds during
`flush`. -/
def flushSuccCount (diskOk : String → Bool) (heap : List (Nat × CacheEntry))
    (l : List (String × Nat)) : Nat :=
  (l.filter
    (fun p => diskOk ((alookup heap p.2).getD defaultEntry).filePath)).length

/-- The mathematical (unwrapped) target position of a `seek` call for the
three valid origins. -/
def seekTarget (len pos : Nat) (offset : Int) (origin : Nat) : Int :=
  if origin = 0 then offset
  else if origin = 1 then (pos : Int) + offset
  else (len : Int) + offset

/-- `calculatePriorityScore`, modelled exactly over the reals: type priority
from the table (default 1/2), size subscore, log-scaled access subscore,
exponentially decaying recency subscore, combined with weights
0.3/0.2/0.3/0.2. -/
noncomputable def calculatePriorityScore (prios : List (String × ℚ))
    (e : CacheEntry) (now : Nat) : ℝ :=
  let typePriority : ℝ := (((alookup prios e.fileType).getD (1/2) : ℚ) : ℝ)
  let sizeScore : ℝ :=
    if 1024 < e.fileSize then min 1 (10240 / (e.fileSize : ℝ)) else 1
  let accessScore : ℝ :=
    1/10 + min (9/10) (Real.logb 2 (1 + (e.accessCount : ℝ)) / 10)
  let duration : ℝ := (((now : ℤ) - (e.lastAccessed : ℤ) : ℤ) : ℝ)
  let recencyScore : ℝ := Real.exp (-duration / 3600)
  typePriority * (3/10) + sizeScore * (2/10) + accessScore * (3/10) +
    recencyScore * (2/10)

/-- Fixture: entry `"a"` with one cached byte and score 1. -/
def entryA : CacheEntry :=
  { filePath := "a", fileType := ".txt", fileSize := 1, accessCount := 0,
    lastAccessed := 0, data := ['x'], priorityScore := 1 }

/-- Fixture: entry `"b"` with one cached byte and the same score 1. -/
def entryB : CacheEntry :=
  { filePath := "b", fileType := ".txt", fileSize := 1, accessCount := 0,
    lastAccessed := 0, data := ['y'], priorityScore := 1 }

/-- Fixture: both entries resident with equal minimal scores; `"a"` was
touched after `"b"`, so the LRU tail (least recently touched) is `"b"`. -/
def tieState : EngineState :=
  { nextId := 2, heap := [(0, entryA), (1, entryB)], maxCacheSize := 100,
    currentCacheSize := 2, cacheMap := [("a", 0), ("b", 1)],
    lruList := ["a", "b"], cacheHits := 0, cacheMisses := 0, diskReads := 0,
    diskWrites := 0, fileTypePriorities := defaultFileTypePriorities }

/-- A fresh handle over entry object 0 in mode `"w"`. -/
def wHandle0 : Handle := { id := 0, mode := "w", position := 0, modified := false }

/-- Fixture for C2: `ContentAwareCache(10)`, then `openFile("a", "w")`. -/
def c2open : Option Handle × EngineState :=
  openFile zeroScore 0 noDisk allOk (emptyState 10) "a" "w"

/-- Fixture for C2: write 20 bytes through the returned handle; the grow
calls `makeRoomInCache(20)`, which evicts entry `"a"` itself. -/
def c2state : EngineState :=
  (fileWrite zeroScore c2open.2 wHandle0 (List.replicate 20 'x') 1 20).state

/-- Fixture for C3/C4: `ContentAwareCache(100)`, `openFile("a", "w")`, then
write the three bytes `xyz` through the handle. -/
def c3state : EngineState :=
  (fileWrite zeroScore
    (openFile zeroScore 0 noDisk allOk (emptyState 100) "a" "w").2
    wHandle0 ['x', 'y', 'z'] 1 3).state

/-- Fixture for C4: re-open the now-resident `"a"` in mode `"w"`. -/
def c4res : Option Handle × EngineState :=
  openFile zeroScore 1 noDisk allOk c3state "a" "w"

/-- Fixture for C5: `setFileTypePriority("TXT", 1.0)` on a fresh cache. -/
def c5state : EngineState :=
  setFileTypePriority zeroScore (emptyState 10) "TXT" 1

/-- Fixture for C6: read-mode open of a non-existent path. -/
def c6res : Option Handle × EngineState :=
  openFile zeroScore 0 noDisk allOk (emptyState 10) "x" "r"

/-- The four statistics counters agree between two states. -/
def countersEq (s t : EngineState) : Prop :=
  t.cacheHits = s.cacheHits ∧ t.cacheMisses = s.cacheMisses ∧
  t.diskReads = s.diskReads ∧ t.diskWrites = s.diskWrites

/-- Two states differ at most in their heap contents. -/
def onlyHeapDiffers (s t : EngineState) : Prop :=
  t.nextId = s.nextId ∧ t.maxCacheSize = s.maxCacheSize ∧
  t.currentCacheSize = s.currentCacheSize ∧ t.cacheMap = s.cacheMap ∧
  t.lruList = s.lruList ∧ countersEq s t ∧
  t.fileTypePriorities = s.fileTypePriorities

/-- The empty entry created by a `'w'`-mode open of a non-resident path. -/
def newEmptyEntry (disk : String → Option (List Char)) (path : String)
    (now : Nat) : CacheEntry :=
  { filePath := path, fileType := (getFileMetadata disk path).1, fileSize := 0,
    accessCount := 0, lastAccessed := now, data := [], priorityScore := 0 }

/-- A small priority table with kernel-evaluable values. -/
def witnessTable : List (String × ℚ) := [(".cfg", 0), (".txt", 1)]

/-- A read-mode handle over entry object 0 with cursor 1. -/
def rHandle1 : Handle := { id := 0, mode := "r", position := 1, modified := false }

/-- A concrete entry for evaluating the scorer. -/
def witnessEntry : CacheEntry :=
  { filePath := "w.txt", fileType := ".txt", fileSize := 2048,
    accessCount := 3, lastAccessed := 5, data := [], priorityScore := 0 }

/-- C1 (code bug): with entries `"a"` and `"b"` both at the minimal score
and `"b"` the least-recently-touched path (the LRU tail),
`findEntryForEviction` returns `"a"` — the first minimal entry in map
iteration order — not the LRU tail `"b"`.  The code's LRU fallback
(`candidatePath.empty()`) can only fire when no score is below `FLT_MAX`,
so the tie-break to the LRU tail promised by the code's own comment and by
the claim never happens. -/
theorem evict_tie_ignores_lru :
    findEntryForEviction tieState = "a" ∧
    tieState.lruList.getLastD "" = "b" ∧ ("a" : String) ≠ "b" := by
  decide

/-- C2 (code bug): `ContentAwareCache(10)`; `openFile("a","w")`;
`write(buf, 1, 20)` on the handle.  The grow inside `write` calls
`makeRoomInCache(20)`, which evicts entry `"a"` itself (subtracting its old
length 0), after which the write still adds 20 to `currentCacheSize`.  The
entry map ends empty, so the sum of resident buffer lengths is 0 while
`currentCacheSize` is 20, refuting the size-accounting invariant. -/
theorem size_accounting_broken_by_self_evicting_write :
    c2open.1 = some wHandle0 ∧ c2state.cacheMap = [] ∧
    sumResidentLen c2state = 0 ∧ c2state.currentCacheSize = 20 := by
  decide

/-- C3 (counterexample): after `openFile("a","w")` and a 3-byte handle
write, the resident entry `"a"` has `metadata.fileSize = 0` but
`data.length = 3`: `CacheFile::write` grows the buffer without ever
updating `metadata.fileSize`. -/
theorem write_breaks_metadata_size :
    alookup c3state.cacheMap "a" = some 0 ∧
    (alookup c3state.heap 0).map CacheEntry.fileSize = some 0 ∧
    (alookup c3state.heap 0).map (fun e => e.data.length) = some 3 := by
  decide

/-- C4 (counterexample): re-opening the resident path `"a"` (whose entry
holds 3 bytes) in mode `"w"` takes the hit path: the open succeeds, the
entry keeps its 3 bytes (size is not 0, nothing is truncated), and the hit
counter is bumped. -/
theorem open_w_resident_no_truncate :
    c4res.1.isSome = true ∧ alookup c4res.2.cacheMap "a" = some 0 ∧
    (alookup c4res.2.heap 0).map (fun e => e.data.length) = some 3 ∧
    c4res.2.cacheHits = 1 := by
  decide

/-- C5 (counterexample): `setFileTypePriority("TXT", 1.0)` stores the value
under `".TXT"` — the extension is dot-prefixed but never lowercased — and
the `".txt"` table entry keeps its default value. -/
theorem set_type_priority_no_lowercase :
    alookup c5state.fileTypePriorities ".TXT" = some 1 ∧
    alookup c5state.fileTypePriorities ".txt" =
      alookup defaultFileTypePriorities ".txt" ∧
    normExt "TXT" = ".TXT" := by
  exact ⟨by decide, rfl, by decide⟩

/-- C6 (counterexample): a read-mode open of a non-existent path returns
the error (`none`) yet increments `cacheMisses` from 0 to 1 — a counter is
updated on an error path. -/
theorem open_error_counts_miss :
    c6res.1 = none ∧ c6res.2.cacheMisses = 1 ∧
    (emptyState 10).cacheMisses = 0 ∧ c6res.2.cacheHits = 0 := by
  decide


theorem alookup_aupdate {α β : Type} [DecidableEq α] (m : List (α × β)) (k k2 : α)
    (f : β → β) :
    alookup (aupdate m k f) k2 =
      if k = k2 then (alookup m k2).map f else alookup m k2 := by
  induction m with
  | nil => simp [alookup, aupdate]
  | cons p t ih =>
    simp only [aupdate, List.map_cons] at *
    by_cases h1 : p.1 = k
    · by_cases h2 : k = k2
      · subst h2; simp [alookup, h1, ih]
      · have h3 : ¬ p.1 = k2 := fun hc => h2 (h1.symm.trans hc)
        simp [alookup, h1, h2, h3, ih]
    · by_cases h2 : p.1 = k2
      · subst h2
        have : ¬ k = p.1 := fun hc => h1 hc.symm
        simp [alookup, h1, this]
      · simp [alookup, h1, h2, ih]

theorem alookup_mem {α β : Type} [DecidableEq α] {m : List (α × β)} {k : α} {v : β}
    (h : alookup m k = some v) : (k, v) ∈ m := by
  induction m with
  | nil => simp [alookup] at h
  | cons p t ih =>
    simp only [alookup] at h
    split at h
    · rename_i he
      cases h
      cases p with
      | mk a b =>
        simp only at he
        subst he
        exact List.mem_cons_self _ _
    · exact List.mem_cons_of_mem _ (ih h)

theorem mem_ainsert {α β : Type} [DecidableEq α] {m : List (α × β)} {k : α} {v : β}
    {p : α × β} (h : p ∈ ainsert m k v) : p ∈ m ∨ p = (k, v) := by
  unfold ainsert at h
  split at h
  · unfold aupdate at h
    rcases List.mem_map.mp h with ⟨q, hq, hqe⟩
    by_cases h1 : q.1 = k
    · right; simp [h1] at hqe; exact hqe.symm
    · left; simp [h1] at hqe; rwa [← hqe]
  · rcases List.mem_append.mp h with h2 | h2
    · exact Or.inl h2
    · right; simpa using h2

theorem mem_aerase {α β : Type} [DecidableEq α] {m : List (α × β)} {k : α}
    {p : α × β} (h : p ∈ aerase m k) : p ∈ m := by
  induction m with
  | nil => simp [aerase] at h
  | cons q t ih =>
    simp only [aerase] at h
    split at h
    · exact List.mem_cons_of_mem _ (ih h)
    · rcases List.mem_cons.mp h with h2 | h2
      · exact h2 ▸ List.mem_cons_self _ _
      · exact List.mem_cons_of_mem _ (ih h2)

theorem alookup_append_absent {α β : Type} [DecidableEq α] (m : List (α × β))
    (k : α) (v : β) (h : alookup m k = none) :
    alookup (m ++ [(k, v)]) k = some v := by
  induction m with
  | nil => simp [alookup]
  | cons p t ih =>
    simp only [alookup] at h ⊢
    split at h
    · exact absurd h (by simp)
    · rename_i hne
      simp only [List.cons_append, alookup, hne, if_false]
      exact ih h

theorem alookup_ainsert_self {α β : Type} [DecidableEq α] (m : List (α × β))
    (k : α) (v : β) : alookup (ainsert m k v) k = some v := by
  unfold ainsert
  split
  · rename_i hs
    rw [alookup_aupdate]
    simp only [if_pos rfl]
    cases hl : alookup m k with
    | none => rw [hl] at hs; simp at hs
    | some w => simp
  · rename_i hs
    have : alookup m k = none := by
      cases hl : alookup m k with
      | none => rfl
      | some w => rw [hl] at hs; simp at hs
    exact alookup_append_absent m k v this

theorem wrap_of_lt {n : Nat} (h : n < W) : wrap n = n := Nat.mod_eq_of_lt h

theorem sub64_of_le {a b : Nat} (hb : b ≤ a) (ha : a < W) : sub64 a b = a - b := by
  unfold sub64 W at *
  have hbw : b % 2 ^ 64 = b := Nat.mod_eq_of_lt (Nat.lt_of_le_of_lt hb ha)
  rw [hbw]
  omega

theorem memcpyAt_length {dst src : List Char} {pos : Nat}
    (h : pos + src.length ≤ dst.length) :
    (memcpyAt dst pos src).length = dst.length := by
  unfold memcpyAt
  simp [List.length_take, List.length_drop]
  omega


theorem sizeShape_refl (m : List (Nat × CacheEntry)) : sizeShape m m :=
  fun _ => rfl

theorem sizeShape_trans {a b c : List (Nat × CacheEntry)}
    (h1 : sizeShape a b) (h2 : sizeShape b c) : sizeShape a c :=
  fun id => (h2 id).trans (h1 id)

theorem sizePres_aupdate (f : CacheEntry → CacheEntry)
    (hf : ∀ e, (f e).fileSize = e.fileSize ∧ (f e).data = e.data)
    (m : List (Nat × CacheEntry)) (k : Nat) : sizeShape m (aupdate m k f) := by
  intro id
  rw [alookup_aupdate]
  by_cases h : k = id
  · simp only [h, if_pos rfl]
    cases alookup m id with
    | none => rfl
    | some e => simp [(hf e).1, (hf e).2]
  · simp [h]

theorem rescoreIfType_sizePres (sc : CacheEntry → ℚ) (ext : String) :
    ∀ e, ((rescoreIfType sc ext) e).fileSize = e.fileSize ∧
         ((rescoreIfType sc ext) e).data = e.data := by
  intro e
  unfold rescoreIfType
  split <;> exact ⟨rfl, rfl⟩

theorem foldHeapUpdate_onlyHeap (f : CacheEntry → CacheEntry)
    (l : List (String × Nat)) (s : EngineState) :
    onlyHeapDiffers s
      (l.foldl (fun st p => { st with heap := aupdate st.heap p.2 f }) s) := by
  induction l generalizing s with
  | nil => exact ⟨rfl, rfl, rfl, rfl, rfl, ⟨rfl, rfl, rfl, rfl⟩, rfl⟩
  | cons p r ih =>
    simp only [List.foldl_cons]
    exact ih { s with heap := aupdate s.heap p.2 f }

theorem foldHeapUpdate_shape (f : CacheEntry → CacheEntry)
    (hf : ∀ e, (f e).fileSize = e.fileSize ∧ (f e).data = e.data)
    (l : List (String × Nat)) (s : EngineState) :
    sizeShape s.heap
      (l.foldl (fun st p => { st with heap := aupdate st.heap p.2 f }) s).heap := by
  induction l generalizing s with
  | nil => exact sizeShape_refl _
  | cons p r ih =>
    simp only [List.foldl_cons]
    exact sizeShape_trans (sizePres_aupdate f hf s.heap p.2)
      (ih { s with heap := aupdate s.heap p.2 f })

theorem foldHeapUpdate_lookup (f : CacheEntry → CacheEntry)
    (l : List (String × Nat)) (s : EngineState)
    (hnd : (l.map Prod.snd).Nodup) :
    (∀ id ∈ l.map Prod.snd,
       alookup
         (l.foldl (fun st p => { st with heap := aupdate st.heap p.2 f }) s).heap
         id = (alookup s.heap id).map f) ∧
    (∀ id, id ∉ l.map Prod.snd →
       alookup
         (l.foldl (fun st p => { st with heap := aupdate st.heap p.2 f }) s).heap
         id = alookup s.heap id) := by
  induction l generalizing s with
  | nil =>
    constructor
    · intro id h
      simp at h
    · intro id _
      rfl
  | cons p r ih =>
    simp only [List.map_cons, List.nodup_cons] at hnd
    obtain ⟨hp, hr⟩ := hnd
    obtain ⟨ih1, ih2⟩ := ih { s with heap := aupdate s.heap p.2 f } hr
    constructor
    · intro id hid
      simp only [List.foldl_cons]
      rcases List.mem_cons.mp hid with hc | hc
      · subst hc
        rw [ih2 _ hp]
        show alookup (aupdate s.heap p.2 f) p.2 = (alookup s.heap p.2).map f
        rw [alookup_aupdate]
        simp
      · have hne : ¬ p.2 = id := fun hc2 => hp (hc2 ▸ hc)
        rw [ih1 _ hc]
        show (alookup (aupdate s.heap p.2 f) id).map f = (alookup s.heap id).map f
        rw [alookup_aupdate, if_neg hne]
    · intro id hid
      simp only [List.foldl_cons]
      have h1 : ¬ p.2 = id := fun hc => hid (by rw [← hc]; exact List.mem_cons_self _ _)
      have h2 : id ∉ r.map Prod.snd := fun hc => hid (List.mem_cons_of_mem _ hc)
      rw [ih2 _ h2]
      show alookup (aupdate s.heap p.2 f) id = alookup s.heap id
      rw [alookup_aupdate, if_neg h1]

theorem updateAllScores_onlyHeap (sc : CacheEntry → ℚ) (s : EngineState) :
    onlyHeapDiffers s (updateAllScores sc s) :=
  foldHeapUpdate_onlyHeap (rescore sc) s.cacheMap s

theorem updateAllScores_shape (sc : CacheEntry → ℚ) (s : EngineState) :
    sizeShape s.heap (updateAllScores sc s).heap :=
  foldHeapUpdate_shape (rescore sc) (fun _ => ⟨rfl, rfl⟩) s.cacheMap s

theorem evictFile_fields (s : EngineState) (path : String) :
    (evictFile s path).heap = s.heap ∧ (evictFile s path).nextId = s.nextId ∧
    (evictFile s path).maxCacheSize = s.maxCacheSize ∧
    countersEq s (evictFile s path) ∧
    (evictFile s path).fileTypePriorities = s.fileTypePriorities ∧
    (∀ p ∈ (evictFile s path).cacheMap, p ∈ s.cacheMap) := by
  unfold evictFile
  cases hl : alookup s.cacheMap path with
  | none => exact ⟨rfl, rfl, rfl, ⟨rfl, rfl, rfl, rfl⟩, rfl, fun p hp => hp⟩
  | some id =>
    refine ⟨rfl, rfl, rfl, ⟨rfl, rfl, rfl, rfl⟩, rfl, fun p hp => mem_aerase hp⟩

theorem evictLoop_fields (fuel required : Nat) (s : EngineState) :
    (evictLoop fuel required s).heap = s.heap ∧
    (evictLoop fuel required s).nextId = s.nextId ∧
    countersEq s (evictLoop fuel required s) ∧
    (evictLoop fuel required s).fileTypePriorities = s.fileTypePriorities ∧
    (∀ p ∈ (evictLoop fuel required s).cacheMap, p ∈ s.cacheMap) := by
  induction fuel generalizing s with
  | zero => exact ⟨rfl, rfl, ⟨rfl, rfl, rfl, rfl⟩, rfl, fun p hp => hp⟩
  | succ n ih =>
    unfold evictLoop
    split
    · split
      · exact ⟨rfl, rfl, ⟨rfl, rfl, rfl, rfl⟩, rfl, fun p hp => hp⟩
      · obtain ⟨i1, i2, ⟨i3, i4, i5, i6⟩, i7, i8⟩ :=
          ih (evictFile s (findEntryForEviction s))
        obtain ⟨g1, g2, g3, ⟨g4, g5, g6, g7⟩, g8, g9⟩ :=
          evictFile_fields s (findEntryForEviction s)
        refine ⟨i1.trans g1, i2.trans g2,
          ⟨i3.trans g4, i4.trans g5, i5.trans g6, i6.trans g7⟩,
          i7.trans g8, fun p hp => g9 p (i8 p hp)⟩
    · exact ⟨rfl, rfl, ⟨rfl, rfl, rfl, rfl⟩, rfl, fun p hp => hp⟩

theorem makeRoom_fields (sc : CacheEntry → ℚ) (s : EngineState) (required : Nat) :
    sizeShape s.heap (makeRoomInCache sc s required).heap ∧
    (makeRoomInCache sc s required).nextId = s.nextId ∧
    countersEq s (makeRoomInCache sc s required) ∧
    (makeRoomInCache sc s required).fileTypePriorities = s.fileTypePriorities ∧
    (∀ p ∈ (makeRoomInCache sc s required).cacheMap, p ∈ s.cacheMap) := by
  unfold makeRoomInCache
  split
  · exact ⟨sizeShape_refl _, rfl, ⟨rfl, rfl, rfl, rfl⟩, rfl, fun p hp => hp⟩
  · obtain ⟨u1, u2, u3, u4, u5, ⟨u6, u7, u8, u9⟩, u10⟩ :=
      updateAllScores_onlyHeap sc s
    have ushape := updateAllScores_shape sc s
    obtain ⟨e1, e2, ⟨e3, e4, e5, e6⟩, e7, e8⟩ :=
      evictLoop_fields (s.cacheMap.length + 1) required (updateAllScores sc s)
    unfold enlargeIfNeeded
    split
    · refine ⟨by rw [e1]; exact ushape, e2.trans u1, ⟨e3.trans u6, e4.trans u7, e5.trans u8, e6.trans u9⟩, e7.trans u10, ?_⟩
      intro p hp
      rw [u4] at e8
      exact e8 p hp
    · refine ⟨by rw [e1]; exact ushape, e2.trans u1, ⟨e3.trans u6, e4.trans u7, e5.trans u8, e6.trans u9⟩, e7.trans u10, ?_⟩
      intro p hp
      rw [u4] at e8
      exact e8 p hp


theorem flush_fold_eq (diskOk : String → Bool) (l : List (String × Nat))
    (s : EngineState) :
    l.foldl
      (fun st p =>
        if diskOk ((alookup st.heap p.2).getD defaultEntry).filePath
        then { st with diskWrites := st.diskWrites + 1 } else st) s =
      { s with diskWrites := s.diskWrites + flushSuccCount diskOk s.heap l } := by
  induction l generalizing s with
  | nil => simp [flushSuccCount]
  | cons p r ih =>
    simp only [List.foldl_cons]
    by_cases hc : diskOk ((alookup s.heap p.2).getD defaultEntry).filePath = true
    · rw [if_pos hc, ih]
      have : s.diskWrites + 1 + flushSuccCount diskOk s.heap r =
          s.diskWrites + flushSuccCount diskOk s.heap (p :: r) := by
        simp [flushSuccCount, List.filter_cons, hc]
        omega
      rw [this]
    · rw [if_neg hc, ih]
      have : flushSuccCount diskOk s.heap r =
          flushSuccCount diskOk s.heap (p :: r) := by
        simp [flushSuccCount, List.filter_cons, hc]
      rw [this]

theorem flushCache_eq (diskOk : String → Bool) (s : EngineState) :
    flushCache diskOk s =
      { s with diskWrites :=
          s.diskWrites + flushSuccCount diskOk s.heap s.cacheMap } :=
  flush_fold_eq diskOk s.cacheMap s

/-- C8: with every disk write succeeding, flushing twice increments
`diskWrites` by exactly `2 × entry_count` and changes nothing else: the
result state equals the input state with only the write counter bumped, so
every entry's buffer and the entry map are untouched. -/
theorem flush_twice_spec (diskOk : String → Bool) (s : EngineState)
    (hall : ∀ p ∈ s.cacheMap,
      diskOk ((alookup s.heap p.2).getD defaultEntry).filePath = true) :
    flushCache diskOk (flushCache diskOk s) =
      { s with diskWrites := s.diskWrites + 2 * s.cacheMap.length } := by
  have hcnt : flushSuccCount diskOk s.heap s.cacheMap = s.cacheMap.length := by
    unfold flushSuccCount
    rw [List.filter_eq_self.mpr hall]
  rw [flushCache_eq, flushCache_eq]
  show ({ s with diskWrites :=
      (s.diskWrites + flushSuccCount diskOk s.heap s.cacheMap) +
        flushSuccCount diskOk s.heap s.cacheMap } : EngineState) = _
  rw [hcnt]
  have : s.diskWrites + s.cacheMap.length + s.cacheMap.length =
      s.diskWrites + 2 * s.cacheMap.length := by omega
  rw [this]

/-- Witness for C8 at a concrete two-entry state with all writes
succeeding. -/
theorem flush_twice_spec_witness :
    flushCache allOk (flushCache allOk tieState) =
      { tieState with diskWrites :=
          tieState.diskWrites + 2 * tieState.cacheMap.length } :=
  flush_twice_spec allOk tieState (by decide)

/-- C10: `CacheFile::read` divides by `size` with no guard: on a handle
with read permission, `size = 0` reaches the division `bytesToCopy / size`
with a zero divisor (undefined behaviour, modelled as `none`), while any
`size > 0` makes the call total. -/
theorem read_requires_positive_size (s : EngineState) (h : Handle)
    (count : Nat) (hr : modeHas h.mode 'r' = true) :
    fileRead s h 0 count = none ∧
    ∀ size, 0 < size → (fileRead s h size count).isSome = true := by
  constructor
  · unfold fileRead
    simp [hr]
  · intro size hs
    unfold fileRead
    simp [hr, Nat.pos_iff_ne_zero.mp hs]

/-- Witness for C10: a zero-size read on a read-mode handle is the
division by zero; a one-byte read is defined. -/
theorem read_requires_positive_size_witness :
    fileRead tieState rHandle1 0 5 = none ∧
    (fileRead tieState rHandle1 1 5).isSome = true :=
  ⟨(read_requires_positive_size tieState rHandle1 5 (by decide)).1,
   (read_requires_positive_size tieState rHandle1 5 (by decide)).2 1
     (by decide)⟩

theorem load_fail_counters (sc : CacheEntry → ℚ) (now : Nat)
    (disk : String → Option (List Char)) (readOk : String → Bool)
    (s : EngineState) (path : String)
    (h : (loadFileIntoCache sc now disk readOk s path).1 = false) :
    countersEq s (loadFileIntoCache sc now disk readOk s path).2 := by
  unfold loadFileIntoCache
  by_cases h0 : (getFileMetadata disk path).2 = 0
  · rw [if_pos h0]
    exact ⟨rfl, rfl, rfl, rfl⟩
  · rw [if_neg h0]
    by_cases hro : readOk path = true
    · exfalso
      unfold loadFileIntoCache at h
      simp [h0, hro] at h
    · rw [if_pos (by simpa using hro)]
      exact (makeRoom_fields sc s (getFileMetadata disk path).2).2.2.1

theorem load_success_lookup (sc : CacheEntry → ℚ) (now : Nat)
    (disk : String → Option (List Char)) (readOk : String → Bool)
    (s : EngineState) (path : String)
    (h : (loadFileIntoCache sc now disk readOk s path).1 = true) :
    ∃ id, alookup (loadFileIntoCache sc now disk readOk s path).2.cacheMap
      path = some id := by
  by_cases h0 : (getFileMetadata disk path).2 = 0
  · exfalso
    unfold loadFileIntoCache at h
    simp [h0] at h
  · by_cases hro : readOk path = true
    · refine ⟨(makeRoomInCache sc s (getFileMetadata disk path).2).nextId, ?_⟩
      unfold loadFileIntoCache
      rw [if_neg h0, if_neg (by simpa using hro)]
      show alookup (ainsert (makeRoomInCache sc s
        (getFileMetadata disk path).2).cacheMap path
        (makeRoomInCache sc s (getFileMetadata disk path).2).nextId) path =
        some (makeRoomInCache sc s (getFileMetadata disk path).2).nextId
      exact alookup_ainsert_self _ _ _
    · exfalso
      unfold loadFileIntoCache at h
      simp [h0, hro] at h

/-- C6 (amended): when `open` returns an error, the hit, disk-read and
disk-write counters are unchanged, but `cacheMisses` has been incremented
by one — the miss is counted before the existence and load checks. -/
theorem open_error_counters (sc : CacheEntry → ℚ) (now : Nat)
    (disk : String → Option (List Char)) (readOk : String → Bool)
    (s : EngineState) (path mode : String)
    (hnone : (openFile sc now disk readOk s path mode).1 = none) :
    (openFile sc now disk readOk s path mode).2.cacheHits = s.cacheHits ∧
    (openFile sc now disk readOk s path mode).2.diskReads = s.diskReads ∧
    (openFile sc now disk readOk s path mode).2.diskWrites = s.diskWrites ∧
    (openFile sc now disk readOk s path mode).2.cacheMisses =
      s.cacheMisses + 1 := by
  cases hl : alookup s.cacheMap path with
  | some id =>
    unfold openFile at hnone
    rw [hl] at hnone
    simp at hnone
  | none =>
    unfold openFile at hnone ⊢
    rw [hl] at hnone ⊢
    by_cases hc1 : modeHas mode 'r' ∧ disk path = none
    · simp [hc1]
    · simp only [if_neg hc1] at hnone ⊢
      by_cases hc2 : modeHas mode 'w' = true
      · simp [hc2] at hnone
      · simp only [Bool.not_eq_true] at hc2
        simp only [hc2, Bool.false_eq_true, if_false] at hnone ⊢
        by_cases hL : (loadFileIntoCache sc now disk readOk
            { s with cacheMisses := s.cacheMisses + 1 } path).1 = true
        · obtain ⟨id, hid⟩ := load_success_lookup sc now disk readOk
            { s with cacheMisses := s.cacheMisses + 1 } path hL
          simp [hL, hid] at hnone
        · simp only [Bool.not_eq_true] at hL
          simp only [hL, Bool.false_eq_true, if_false] at hnone ⊢
          have hcc := load_fail_counters sc now disk readOk
            { s with cacheMisses := s.cacheMisses + 1 } path hL
          obtain ⟨k1, k2, k3, k4⟩ := hcc
          exact ⟨k1, k3, k4, k2⟩

/-- Witness for C6 (amended) at a concrete failing open. -/
theorem open_error_counters_witness :
    (openFile zeroScore 0 noDisk allOk (emptyState 10) "x" "r").2.cacheHits =
      (emptyState 10).cacheHits ∧
    (openFile zeroScore 0 noDisk allOk (emptyState 10) "x" "r").2.diskReads =
      (emptyState 10).diskReads ∧
    (openFile zeroScore 0 noDisk allOk (emptyState 10) "x" "r").2.diskWrites =
      (emptyState 10).diskWrites ∧
    (openFile zeroScore 0 noDisk allOk (emptyState 10) "x" "r").2.cacheMisses =
      (emptyState 10).cacheMisses + 1 :=
  open_error_counters zeroScore 0 noDisk allOk (emptyState 10) "x" "r"
    (by decide)


/-- C4 (amended): `open` with a mode containing `w` creates an empty
size-0 entry only when the path is not already resident (and any read-mode
existence check passes); when the path is resident, `open` takes the hit
path — it bumps `cacheHits`, touches the LRU and returns a handle over the
existing entry with the entry map and heap (hence all cached contents)
unchanged: nothing is truncated. -/
theorem open_w_spec (sc : CacheEntry → ℚ) (now : Nat)
    (disk : String → Option (List Char)) (readOk : String → Bool)
    (s : EngineState) (path mode : String) :
    (∀ id, alookup s.cacheMap path = some id →
       openFile sc now disk readOk s path mode =
         (some { id := id, mode := mode, position := 0, modified := false },
          updateLRU { s with cacheHits := s.cacheHits + 1 } path)) ∧
    (alookup s.cacheMap path = none → modeHas mode 'w' = true →
       ¬ (modeHas mode 'r' ∧ disk path = none) →
       openFile sc now disk readOk s path mode =
         (some { id := s.nextId, mode := mode, position := 0,
                 modified := false },
          updateLRU
            { s with cacheMisses := s.cacheMisses + 1,
                     nextId := s.nextId + 1,
                     heap := (s.nextId, newEmptyEntry disk path now) :: s.heap,
                     cacheMap := ainsert s.cacheMap path s.nextId } path)) := by
  constructor
  · intro id hl
    unfold openFile
    rw [hl]
  · intro hl hw hnr
    unfold openFile
    rw [hl]
    simp only [if_neg hnr, hw, if_true]
    rfl

/-- Witness for C4 (amended): a `'w'` open of a fresh path creates the
empty entry. -/
theorem open_w_spec_witness :
    openFile zeroScore 0 noDisk allOk (emptyState 10) "a" "w" =
      (some { id := (emptyState 10).nextId, mode := "w", position := 0,
              modified := false },
       updateLRU
         { emptyState 10 with
             cacheMisses := (emptyState 10).cacheMisses + 1,
             nextId := (emptyState 10).nextId + 1,
             heap := ((emptyState 10).nextId, newEmptyEntry noDisk "a" 0) ::
               (emptyState 10).heap,
             cacheMap := ainsert (emptyState 10).cacheMap "a"
               (emptyState 10).nextId } "a") :=
  (open_w_spec zeroScore 0 noDisk allOk (emptyState 10) "a" "w").2
    (by decide) (by decide) (by decide)

/-- C5 (amended): `set_type_priority(ext, v)` stores `v` clamped into
[0,1] under `ext` prefixed with a dot when one is missing (case is
preserved, not lowercased), leaves the entry map unchanged, rewrites
exactly the resident entry objects — applying `rescoreIfType`, which
recomputes the score of entries whose `fileType` equals the normalised
extension and is the identity on the rest — and touches no other heap
object. -/
theorem set_type_priority_spec (sc : CacheEntry → ℚ) (s : EngineState)
    (extension : String) (priority : ℚ)
    (hnd : (s.cacheMap.map Prod.snd).Nodup) :
    (setFileTypePriority sc s extension priority).fileTypePriorities =
      ainsert s.fileTypePriorities (normExt extension)
        (max 0 (min 1 priority)) ∧
    (setFileTypePriority sc s extension priority).cacheMap = s.cacheMap ∧
    (∀ id ∈ s.cacheMap.map Prod.snd,
       alookup (setFileTypePriority sc s extension priority).heap id =
         (alookup s.heap id).map (rescoreIfType sc (normExt extension))) ∧
    (∀ id, id ∉ s.cacheMap.map Prod.snd →
       alookup (setFileTypePriority sc s extension priority).heap id =
         alookup s.heap id) := by
  have h1 := foldHeapUpdate_onlyHeap (rescoreIfType sc (normExt extension))
    s.cacheMap
    { s with fileTypePriorities := ainsert s.fileTypePriorities (normExt extension) (max 0 (min 1 priority)) }
  have h2 := foldHeapUpdate_lookup (rescoreIfType sc (normExt extension))
    s.cacheMap
    { s with fileTypePriorities := ainsert s.fileTypePriorities (normExt extension) (max 0 (min 1 priority)) }
    hnd
  obtain ⟨g1, g2, g3, g4, g5, g6, g7⟩ := h1
  obtain ⟨g8, g9⟩ := h2
  exact ⟨g7, g4, g8, g9⟩

/-- Witness for C5 (amended) at a concrete state with distinct entry
ids. -/
theorem set_type_priority_spec_witness :
    (setFileTypePriority zeroScore tieState ".txt" 1).fileTypePriorities =
      ainsert tieState.fileTypePriorities (normExt ".txt")
        (max 0 (min 1 1)) ∧
    (setFileTypePriority zeroScore tieState ".txt" 1).cacheMap =
      tieState.cacheMap ∧
    (∀ id ∈ tieState.cacheMap.map Prod.snd,
       alookup (setFileTypePriority zeroScore tieState ".txt" 1).heap id =
         (alookup tieState.heap id).map
           (rescoreIfType zeroScore (normExt ".txt"))) ∧
    (∀ id, id ∉ tieState.cacheMap.map Prod.snd →
       alookup (setFileTypePriority zeroScore tieState ".txt" 1).heap id =
         alookup tieState.heap id) :=
  set_type_priority_spec zeroScore tieState ".txt" 1 (by decide)


theorem sizeShape_lookup {m m2 : List (Nat × CacheEntry)} (hs : sizeShape m m2)
    {id : Nat} {e : CacheEntry} (h : alookup m id = some e) :
    ∃ e2, alookup m2 id = some e2 ∧ e2.fileSize = e.fileSize ∧
      e2.data = e.data := by
  have hh := hs id
  rw [h] at hh
  cases h2 : alookup m2 id with
  | none =>
    rw [h2] at hh
    exact Option.noConfusion hh
  | some e2 =>
    rw [h2] at hh
    simp only [Option.map_some'] at hh
    have h3 := Option.some.inj hh
    exact ⟨e2, rfl, congrArg Prod.fst h3, congrArg Prod.snd h3⟩

theorem lenW : ∀ {n : Nat}, n < 2 ^ 63 → n < W := by
  intro n h
  have : (2:Nat) ^ 63 < 2 ^ 64 := by norm_num
  unfold W
  omega

theorem toSizeT_toNat {t : Int} (h0 : 0 ≤ t) (hW : t < 18446744073709551616) :
    toSizeT t = t.toNat := by
  unfold toSizeT
  have hw : ((W : Nat) : Int) = 18446744073709551616 := by norm_num [W]
  rw [hw]
  omega

theorem toSizeT_neg_big {t : Int} (h0 : t < 0) (hl : -9223372036854775808 ≤ t) :
    9223372036854775808 ≤ toSizeT t := by
  unfold toSizeT
  have hw : ((W : Nat) : Int) = 18446744073709551616 := by norm_num [W]
  rw [hw]
  omega


theorem fileRead_pos_le (s : EngineState) (h : Handle) (e : CacheEntry)
    (he : alookup s.heap h.id = some e) (hpos : h.position ≤ e.data.length)
    (hlen : e.data.length < 2 ^ 63) :
    ∀ size count r h2, fileRead s h size count = some (r, h2) →
      h2.position ≤ e.data.length := by
  intro size count r h2 hread
  unfold fileRead at hread
  by_cases hr : modeHas h.mode 'r' = true
  · simp only [hr, not_true_eq_false, if_false, he, Option.getD_some] at hread
    by_cases hz : size = 0
    · simp [hz] at hread
    · simp only [hz, if_false, Option.some.injEq, Prod.mk.injEq] at hread
      obtain ⟨hr1, hr2⟩ := hread
      subst hr2
      have hsub : sub64 e.data.length h.position =
          e.data.length - h.position := sub64_of_le hpos (lenW hlen)
      split
      · rename_i hcopy
        show wrap (h.position + min (wrap (size * count))
          (sub64 e.data.length h.position)) ≤ e.data.length
        rw [hsub]
        have hle : h.position + min (wrap (size * count))
            (e.data.length - h.position) ≤ e.data.length := by
          have := Nat.min_le_right (wrap (size * count))
            (e.data.length - h.position)
          omega
        rw [wrap_of_lt (Nat.lt_of_le_of_lt hle (lenW hlen))]
        exact hle
      · exact hpos
  · have hinj : ((0 : Nat), h) = (r, h2) := by
      apply Option.some.inj
      rw [← hread, if_pos]
      simpa using hr
    injection hinj with e1 e2
    rw [← e2]
    exact hpos


theorem fileWriteGrow_pos_le (sc : CacheEntry → ℚ) (s : EngineState)
    (h : Handle) (buf : List Char) (count position oldSize btw : Nat)
    (e : CacheEntry) (he : alookup s.heap h.id = some e)
    (hlt : position + btw < W) :
    ∀ e2, alookup
        (fileWriteGrow sc s h buf count position oldSize btw).state.heap
        h.id = some e2 →
      (fileWriteGrow sc s h buf count position oldSize btw).handle.position ≤
        e2.data.length := by
  intro e2 he2
  obtain ⟨e1, he1, hfs, hdata⟩ := sizeShape_lookup
    (makeRoom_fields sc s (sub64 (wrap (position + btw)) oldSize)).1 he
  unfold fileWriteGrow at he2 ⊢
  simp only [he1, Option.getD_some] at he2 ⊢
  rw [alookup_aupdate, if_pos rfl, he1] at he2
  simp only [Option.map_some'] at he2
  rw [← Option.some.inj he2]
  have hwr : wrap (position + btw) = position + btw := wrap_of_lt hlt
  have hdst : (e1.data ++
      List.replicate (wrap (position + btw) - e1.data.length) zeroChar).length =
      max (wrap (position + btw)) e1.data.length := by
    simp [List.length_append, List.length_replicate]
    omega
  have htk : (buf.take btw).length ≤ btw := by
    simp [List.length_take]
  have hcpy : (memcpyAt
      (e1.data ++ List.replicate (wrap (position + btw) - e1.data.length) zeroChar)
      position (buf.take btw)).length =
      max (wrap (position + btw)) e1.data.length := by
    rw [memcpyAt_length, hdst]
    rw [hdst]
    have : position + btw ≤ max (wrap (position + btw)) e1.data.length := by
      rw [hwr]
      omega
    omega
  simp only [hcpy]
  rw [hwr]
  omega

theorem fileWriteNoGrow_pos_le (s : EngineState) (h : Handle)
    (buf : List Char) (count position btw : Nat) (e : CacheEntry)
    (he : alookup s.heap h.id = some e)
    (hW : e.data.length < W)
    (hng : position + btw ≤ e.data.length) :
    ∀ e2, alookup
        (fileWriteNoGrow s h buf count position e btw).state.heap h.id =
        some e2 →
      (fileWriteNoGrow s h buf count position e btw).handle.position ≤
        e2.data.length := by
  intro e2 he2
  unfold fileWriteNoGrow at he2 ⊢
  rw [alookup_aupdate, if_pos rfl, he] at he2
  simp only [Option.map_some'] at he2
  rw [← Option.some.inj he2]
  have htk : (buf.take btw).length ≤ btw := by
    simp [List.length_take]
  have hcpy : (memcpyAt e.data position (buf.take btw)).length =
      e.data.length := by
    rw [memcpyAt_length]
    omega
  simp only [hcpy]
  rw [wrap_of_lt (Nat.lt_of_le_of_lt hng hW)]
  exact hng

theorem fileWrite_pos_le (s : EngineState) (h : Handle) (e : CacheEntry)
    (he : alookup s.heap h.id = some e) (hpos : h.position ≤ e.data.length)
    (hlen : e.data.length < 2 ^ 63) (sc : CacheEntry → ℚ) (buf : List Char)
    (size count : Nat) (hsz : size * count < 2 ^ 63) :
    ∀ e2, alookup (fileWrite sc s h buf size count).state.heap h.id =
        some e2 →
      (fileWrite sc s h buf size count).handle.position ≤ e2.data.length := by
  intro e2 he2
  have hbtw : wrap (size * count) = size * count := wrap_of_lt (lenW hsz)
  have hWl : e.data.length < W := lenW hlen
  unfold fileWrite at he2 ⊢
  by_cases hperm : (modeHas h.mode 'w' = true ∨ modeHas h.mode 'a' = true)
  · rw [if_neg (fun hc => hc hperm)] at he2 ⊢
    simp only [he, Option.getD_some] at he2 ⊢
    by_cases happ : (modeHas h.mode 'a' = true ∧ h.position ≠ e.data.length)
    · rw [if_pos happ] at he2 ⊢
      by_cases hg : e.data.length < wrap (e.data.length + wrap (size * count))
      · rw [if_pos hg] at he2 ⊢
        exact fileWriteGrow_pos_le sc s h buf count e.data.length
          e.data.length (wrap (size * count)) e he
          (by rw [hbtw]; unfold W; omega) e2 he2
      · rw [if_neg hg] at he2 ⊢
        have hng : e.data.length + wrap (size * count) ≤ e.data.length := by
          rw [wrap_of_lt (by rw [hbtw]; unfold W at *; omega)] at hg
          omega
        exact fileWriteNoGrow_pos_le s h buf count e.data.length
          (wrap (size * count)) e he hWl hng e2 he2
    · rw [if_neg happ] at he2 ⊢
      by_cases hg : e.data.length < wrap (h.position + wrap (size * count))
      · rw [if_pos hg] at he2 ⊢
        exact fileWriteGrow_pos_le sc s h buf count h.position
          e.data.length (wrap (size * count)) e he
          (by rw [hbtw]; unfold W; omega) e2 he2
      · rw [if_neg hg] at he2 ⊢
        have hng : h.position + wrap (size * count) ≤ e.data.length := by
          rw [wrap_of_lt (by rw [hbtw]; unfold W at *; omega)] at hg
          omega
        exact fileWriteNoGrow_pos_le s h buf count h.position
          (wrap (size * count)) e he hWl hng e2 he2
  · rw [if_pos hperm] at he2 ⊢
    rw [he] at he2
    rw [← Option.some.inj he2]
    exact hpos


theorem fileSeek_reject (s : EngineState) (h : Handle) (e : CacheEntry)
    (he : alookup s.heap h.id = some e) (hpos : h.position ≤ e.data.length)
    (hlen : e.data.length < 2 ^ 63) (offset : Int) (origin : Nat)
    (hlo : -(2 ^ 63 : Int) ≤ offset) (hhi : offset < 2 ^ 63)
    (hbad : 3 ≤ origin ∨
      seekTarget e.data.length h.position offset origin < 0 ∨
      (e.data.length : Int) < seekTarget e.data.length h.position offset origin) :
    fileSeek s h offset origin = (-1, h) := by
  have h63 : (2 : Int) ^ 63 = 9223372036854775808 := by norm_num
  have h63n : (2 : Nat) ^ 63 = 9223372036854775808 := by norm_num
  unfold fileSeek seekTo
  simp only [he, Option.getD_some]
  by_cases h0 : origin = 0
  · subst h0
    have hbad2 : offset < 0 ∨ (e.data.length : Int) < offset := by
      rcases hbad with h3 | hb | hb
      · omega
      · simp [seekTarget] at hb
        omega
      · simp [seekTarget] at hb
        omega
    rw [if_pos rfl]
    rcases hbad2 with hb | hb
    · have hcc := toSizeT_neg_big hb (by omega)
      rw [if_pos (show e.data.length < toSizeT offset by omega)]
    · rw [toSizeT_toNat (by omega) (by omega)]
      rw [if_pos (show e.data.length < offset.toNat by omega)]
  · by_cases h1 : origin = 1
    · subst h1
      have hbad2 : (h.position : Int) + offset < 0 ∨
          (e.data.length : Int) < (h.position : Int) + offset := by
        rcases hbad with h3 | hb | hb
        · omega
        · simp [seekTarget] at hb
          omega
        · simp [seekTarget] at hb
          omega
      rw [if_neg h0, if_pos rfl]
      rcases hbad2 with hb | hb
      · have hcc := toSizeT_neg_big hb (by omega)
        rw [if_pos (show e.data.length <
          toSizeT ((h.position : Int) + offset) by omega)]
      · rw [toSizeT_toNat (by omega) (by omega)]
        rw [if_pos (show e.data.length <
          ((h.position : Int) + offset).toNat by omega)]
    · by_cases h2 : origin = 2
      · subst h2
        have hbad2 : (e.data.length : Int) + offset < 0 ∨
            (e.data.length : Int) < (e.data.length : Int) + offset := by
          rcases hbad with h3 | hb | hb
          · omega
          · simp [seekTarget] at hb
            omega
          · simp [seekTarget] at hb
            omega
        rw [if_neg h0, if_neg h1, if_pos rfl]
        rcases hbad2 with hb | hb
        · have hcc := toSizeT_neg_big hb (by omega)
          rw [if_pos (show e.data.length <
            toSizeT ((e.data.length : Int) + offset) by omega)]
        · rw [toSizeT_toNat (by omega) (by omega)]
          rw [if_pos (show e.data.length <
            ((e.data.length : Int) + offset).toNat by omega)]
      · rw [if_neg h0, if_neg h1, if_neg h2]

theorem fileSeek_accept (s : EngineState) (h : Handle) (e : CacheEntry)
    (he : alookup s.heap h.id = some e)
    (hlen : e.data.length < 2 ^ 63) (offset : Int) (origin : Nat)
    (ho : origin < 3)
    (h0 : 0 ≤ seekTarget e.data.length h.position offset origin)
    (h1 : seekTarget e.data.length h.position offset origin ≤
      (e.data.length : Int)) :
    fileSeek s h offset origin =
      (0, { h with position :=
        (seekTarget e.data.length h.position offset origin).toNat }) := by
  have h63n : (2 : Nat) ^ 63 = 9223372036854775808 := by norm_num
  unfold fileSeek seekTo
  simp only [he, Option.getD_some]
  by_cases ho0 : origin = 0
  · subst ho0
    simp [seekTarget] at h0 h1
    rw [if_pos rfl, toSizeT_toNat h0 (by omega)]
    unfold seekTarget
    rw [if_pos rfl]
    rw [if_neg (show ¬ e.data.length < offset.toNat by omega)]
  · by_cases ho1 : origin = 1
    · subst ho1
      simp [seekTarget, ho0] at h0 h1
      rw [if_neg ho0, if_pos rfl, toSizeT_toNat (by omega) (by omega)]
      unfold seekTarget
      rw [if_neg ho0, if_pos rfl]
      rw [if_neg (show ¬ e.data.length <
        ((h.position : Int) + offset).toNat by omega)]
    · have ho2 : origin = 2 := by omega
      subst ho2
      simp [seekTarget, ho0, ho1] at h0 h1
      rw [if_neg ho0, if_neg ho1, if_pos rfl, toSizeT_toNat (by omega) (by omega)]
      unfold seekTarget
      rw [if_neg ho0, if_neg ho1]
      rw [if_neg (show ¬ e.data.length <
        ((e.data.length : Int) + offset).toNat by omega)]


/-- C9: the handle cursor always stays within `[0, data.length]` (the
cursor is a `size_t`, hence never negative): a successful `read` leaves it
at most at the buffer's end; a `write` leaves it at most at the (possibly
grown) end of the written entry; any `seek` whose mathematical target falls
before the beginning or past `data.length` (or uses an unknown origin)
returns −1 and leaves the cursor unchanged; an in-range `seek` succeeds and
lands in bounds. -/
theorem cursor_within_bounds (s : EngineState) (h : Handle) (e : CacheEntry)
    (he : alookup s.heap h.id = some e)
    (hpos : h.position ≤ e.data.length)
    (hlen : e.data.length < 2 ^ 63) :
    (∀ size count r h2, fileRead s h size count = some (r, h2) →
        h2.position ≤ e.data.length) ∧
    (∀ sc buf size count, size * count < 2 ^ 63 →
        ∀ e2, alookup (fileWrite sc s h buf size count).state.heap h.id =
            some e2 →
          (fileWrite sc s h buf size count).handle.position ≤
            e2.data.length) ∧
    (∀ offset origin, -(2 ^ 63 : Int) ≤ offset → offset < 2 ^ 63 →
        (3 ≤ origin ∨ seekTarget e.data.length h.position offset origin < 0 ∨
          (e.data.length : Int) <
            seekTarget e.data.length h.position offset origin) →
        fileSeek s h offset origin = (-1, h)) ∧
    (∀ offset origin, origin < 3 →
        0 ≤ seekTarget e.data.length h.position offset origin →
        seekTarget e.data.length h.position offset origin ≤
          (e.data.length : Int) →
        fileSeek s h offset origin =
          (0, { h with position :=
            (seekTarget e.data.length h.position offset origin).toNat }) ∧
        (seekTarget e.data.length h.position offset origin).toNat ≤
          e.data.length) :=
  ⟨fun size count r h2 => fileRead_pos_le s h e he hpos hlen size count r h2,
   fun sc buf size count hsz =>
     fileWrite_pos_le s h e he hpos hlen sc buf size count hsz,
   fun offset origin hlo hhi hbad =>
     fileSeek_reject s h e he hpos hlen offset origin hlo hhi hbad,
   fun offset origin ho h0 h1 =>
     ⟨fileSeek_accept s h e he hlen offset origin ho h0 h1, by omega⟩⟩

/-- Witness for C9: a backwards seek past the beginning is rejected with
the cursor unchanged. -/
theorem cursor_within_bounds_witness :
    fileSeek tieState rHandle1 (-2) 1 = (-1, rHandle1) :=
  (cursor_within_bounds tieState rHandle1 entryA (by decide) (by decide)
      (by decide)).2.2.1 (-2) 1 (by decide) (by decide)
    (Or.inr (Or.inl (by decide)))

/-- C7: the priority scorer returns a value in the closed interval [0, 1]
whenever every table value is in [0, 1] (true of the defaults and preserved
by the clamping setter) and the wall clock has not run backwards past the
entry's last access. -/
theorem priority_score_in_unit_interval (prios : List (String × ℚ))
    (e : CacheEntry) (now : Nat)
    (hp : ∀ p ∈ prios, 0 ≤ p.2 ∧ p.2 ≤ 1)
    (hle : e.lastAccessed ≤ now) :
    0 ≤ calculatePriorityScore prios e now ∧
      calculatePriorityScore prios e now ≤ 1 := by
  have htp : 0 ≤ (((alookup prios e.fileType).getD (1/2) : ℚ) : ℝ) ∧
      (((alookup prios e.fileType).getD (1/2) : ℚ) : ℝ) ≤ 1 := by
    cases hl : alookup prios e.fileType with
    | none =>
      simp only [Option.getD_none]
      constructor <;> norm_num
    | some v =>
      have hv := hp (e.fileType, v) (alookup_mem hl)
      simp only [Option.getD_some]
      constructor
      · exact_mod_cast hv.1
      · exact_mod_cast hv.2
  have hsz : 0 ≤ (if 1024 < e.fileSize
        then min 1 (10240 / (e.fileSize : ℝ)) else 1) ∧
      (if 1024 < e.fileSize then min 1 (10240 / (e.fileSize : ℝ)) else 1) ≤
        1 := by
    split
    · constructor
      · refine le_min (by norm_num) ?_
        positivity
      · exact min_le_left _ _
    · norm_num
  have hlb : (0:ℝ) ≤ Real.logb 2 (1 + (e.accessCount : ℝ)) := by
    apply Real.logb_nonneg (by norm_num)
    have : (0:ℝ) ≤ (e.accessCount : ℝ) := Nat.cast_nonneg _
    linarith
  have hacc : (0:ℝ) ≤
      1/10 + min (9/10) (Real.logb 2 (1 + (e.accessCount : ℝ)) / 10) ∧
      1/10 + min (9/10) (Real.logb 2 (1 + (e.accessCount : ℝ)) / 10) ≤ 1 := by
    constructor
    · have h1 : (0:ℝ) ≤
          min (9/10) (Real.logb 2 (1 + (e.accessCount : ℝ)) / 10) :=
        le_min (by norm_num) (by linarith)
      linarith
    · have h2 := min_le_left (9/10 : ℝ)
        (Real.logb 2 (1 + (e.accessCount : ℝ)) / 10)
      linarith
  have hrec : (0:ℝ) ≤
      Real.exp (-((((now : ℤ) - (e.lastAccessed : ℤ) : ℤ) : ℝ)) / 3600) ∧
      Real.exp (-((((now : ℤ) - (e.lastAccessed : ℤ) : ℤ) : ℝ)) / 3600) ≤
        1 := by
    constructor
    · exact (Real.exp_pos _).le
    · rw [show (1:ℝ) = Real.exp 0 from (Real.exp_zero).symm]
      apply Real.exp_le_exp.mpr
      have hd : (0:ℝ) ≤ (((now : ℤ) - (e.lastAccessed : ℤ) : ℤ) : ℝ) := by
        have hz : (e.lastAccessed : ℤ) ≤ (now : ℤ) := by exact_mod_cast hle
        have := sub_nonneg.mpr hz
        exact_mod_cast this
      have := div_nonneg hd (by norm_num : (0:ℝ) ≤ 3600)
      linarith
  unfold calculatePriorityScore
  constructor
  · nlinarith [htp.1, htp.2, hsz.1, hsz.2, hacc.1, hacc.2, hrec.1, hrec.2]
  · nlinarith [htp.1, htp.2, hsz.1, hsz.2, hacc.1, hacc.2, hrec.1, hrec.2]

/-- Witness for C7 at a concrete entry, table and instant. -/
theorem priority_score_in_unit_interval_witness :
    0 ≤ calculatePriorityScore witnessTable witnessEntry 9 ∧
      calculatePriorityScore witnessTable witnessEntry 9 ≤ 1 :=
  priority_score_in_unit_interval witnessTable witnessEntry 9 (by decide)
    (by decide)


theorem metaInv_transfer (s t : EngineState)
    (hm : ∀ p ∈ t.cacheMap, p ∈ s.cacheMap)
    (hh : sizeShape s.heap t.heap) (hinv : MetaInv s) : MetaInv t := by
  intro p hp e het
  have hproj := hh p.2
  rw [het] at hproj
  cases h0 : alookup s.heap p.2 with
  | none =>
    rw [h0] at hproj
    exact Option.noConfusion hproj
  | some e0 =>
    rw [h0] at hproj
    simp only [Option.map_some'] at hproj
    have h3 := Option.some.inj hproj
    have hfs : e.fileSize = e0.fileSize := congrArg Prod.fst h3
    have hdt : e.data = e0.data := congrArg Prod.snd h3
    rw [hfs, hdt]
    exact hinv p (hm p hp) e0 h0

theorem metaInv_insert_raw (heap : List (Nat × CacheEntry))
    (m : List (String × Nat)) (path : String) (id : Nat) (eN : CacheEntry)
    (hinv : ∀ p ∈ m, ∀ e, alookup heap p.2 = some e →
      e.fileSize = e.data.length)
    (hsz : eN.fileSize = eN.data.length) :
    ∀ p ∈ ainsert m path id, ∀ e, alookup ((id, eN) :: heap) p.2 = some e →
      e.fileSize = e.data.length := by
  intro p hp e he
  by_cases hid : id = p.2
  · have : alookup ((id, eN) :: heap) p.2 = some eN := by
      simp [alookup, hid]
    rw [this] at he
    rw [← Option.some.inj he]
    exact hsz
  · have : alookup ((id, eN) :: heap) p.2 = alookup heap p.2 := by
      simp [alookup, hid]
    rw [this] at he
    rcases mem_ainsert hp with hmem | hpe
    · exact hinv p hmem e he
    · exfalso
      rw [hpe] at hid
      exact hid rfl

theorem metaInv_load_raw (heap : List (Nat × CacheEntry))
    (m : List (String × Nat)) (path : String) (id : Nat) (eN : CacheEntry)
    (f : CacheEntry → CacheEntry)
    (hf : ∀ e, (f e).fileSize = e.fileSize ∧ (f e).data = e.data)
    (hinv : ∀ p ∈ m, ∀ e, alookup heap p.2 = some e →
      e.fileSize = e.data.length)
    (hsz : eN.fileSize = eN.data.length) :
    ∀ p ∈ ainsert m path id, ∀ e,
      alookup (aupdate ((id, eN) :: heap) id f) p.2 = some e →
        e.fileSize = e.data.length := by
  intro p hp e he
  rw [alookup_aupdate] at he
  by_cases hid : id = p.2
  · rw [if_pos hid] at he
    have hl : alookup ((id, eN) :: heap) p.2 = some eN := by
      simp [alookup, hid]
    rw [hl] at he
    simp only [Option.map_some'] at he
    rw [← Option.some.inj he]
    rw [(hf eN).1, (hf eN).2]
    exact hsz
  · rw [if_neg hid] at he
    have hl : alookup ((id, eN) :: heap) p.2 = alookup heap p.2 := by
      simp [alookup, hid]
    rw [hl] at he
    rcases mem_ainsert hp with hmem | hpe
    · exact hinv p hmem e he
    · exfalso
      rw [hpe] at hid
      exact hid rfl

theorem makeRoom_metaInv (sc : CacheEntry → ℚ) (s : EngineState)
    (required : Nat) (hinv : MetaInv s) :
    MetaInv (makeRoomInCache sc s required) := by
  obtain ⟨g1, _, _, _, g5⟩ := makeRoom_fields sc s required
  exact metaInv_transfer s (makeRoomInCache sc s required) g5 g1 hinv

theorem admitLoaded_metaInv (sc : CacheEntry → ℚ) (now : Nat)
    (disk : String → Option (List Char)) (s1 : EngineState) (path : String)
    (hinv : MetaInv s1)
    (hsz : (loadedEntry disk now path).fileSize =
      (loadedEntry disk now path).data.length) :
    MetaInv (admitLoaded sc now disk s1 path) := by
  intro p hp e he
  exact metaInv_load_raw s1.heap s1.cacheMap path s1.nextId
    (loadedEntry disk now path) (rescore sc) (fun e0 => ⟨rfl, rfl⟩) hinv hsz
    p hp e he

theorem loadFile_metaInv (sc : CacheEntry → ℚ) (now : Nat)
    (disk : String → Option (List Char)) (readOk : String → Bool)
    (s : EngineState) (path : String) (hinv : MetaInv s) :
    MetaInv (loadFileIntoCache sc now disk readOk s path).2 := by
  unfold loadFileIntoCache
  by_cases h0 : (getFileMetadata disk path).2 = 0
  · rw [if_pos h0]
    exact hinv
  · rw [if_neg h0]
    by_cases hro : readOk path = true
    · rw [if_neg (by simpa using hro)]
      apply admitLoaded_metaInv
      · exact makeRoom_metaInv sc s _ hinv
      · cases hd : disk path with
        | none =>
          exfalso
          unfold getFileMetadata at h0
          rw [hd] at h0
          exact h0 rfl
        | some content => simp [loadedEntry, getFileMetadata, hd]
    · rw [if_pos (by simpa using hro)]
      exact makeRoom_metaInv sc s _ hinv

theorem openFile_metaInv (sc : CacheEntry → ℚ) (now : Nat)
    (disk : String → Option (List Char)) (readOk : String → Bool)
    (s : EngineState) (path mode : String) (hinv : MetaInv s) :
    MetaInv (openFile sc now disk readOk s path mode).2 := by
  unfold openFile
  cases hl : alookup s.cacheMap path with
  | some id => exact hinv
  | none =>
    by_cases hc1 : modeHas mode 'r' ∧ disk path = none
    · simp only [if_pos hc1]
      exact hinv
    · simp only [if_neg hc1]
      by_cases hc2 : modeHas mode 'w' = true
      · simp only [hc2, if_true]
        intro p hp e he
        exact metaInv_insert_raw s.heap s.cacheMap path s.nextId _ hinv rfl
          p hp e he
      · simp only [Bool.not_eq_true] at hc2
        simp only [hc2, Bool.false_eq_true, if_false]
        by_cases hL : (loadFileIntoCache sc now disk readOk
            { s with cacheMisses := s.cacheMisses + 1 } path).1 = true
        · simp only [hL, if_true]
          have hld := loadFile_metaInv sc now disk readOk
            { s with cacheMisses := s.cacheMisses + 1 } path hinv
          cases hf : alookup (loadFileIntoCache sc now disk readOk
              { s with cacheMisses := s.cacheMisses + 1 } path).2.cacheMap
              path with
          | none => exact hld
          | some id => exact hld
        · simp only [hL, Bool.false_eq_true, if_false]
          exact loadFile_metaInv sc now disk readOk
            { s with cacheMisses := s.cacheMisses + 1 } path hinv

theorem updateEntryScore_metaInv (sc : CacheEntry → ℚ) (s : EngineState)
    (path : String) (hinv : MetaInv s) :
    MetaInv (updateEntryScore sc s path) := by
  unfold updateEntryScore
  cases hl : alookup s.cacheMap path with
  | none => exact hinv
  | some id =>
    show MetaInv { s with heap := aupdate s.heap id (rescore sc) }
    exact metaInv_transfer s _ (fun p hp => hp)
      (sizePres_aupdate (rescore sc) (fun e => ⟨rfl, rfl⟩) s.heap id) hinv

theorem bumpIfFlushed_metaInv (diskOk : String → Bool) (s : EngineState)
    (h : Handle) (hinv : MetaInv s) : MetaInv (bumpIfFlushed diskOk s h) := by
  unfold bumpIfFlushed
  split
  · split
    · exact hinv
    · exact hinv
  · exact hinv

theorem closeFile_metaInv (sc : CacheEntry → ℚ) (now : Nat)
    (diskOk : String → Bool) (s : EngineState) (h : Handle)
    (hinv : MetaInv s) : MetaInv (closeFile sc now diskOk s h) := by
  unfold closeFile
  apply updateEntryScore_metaInv
  unfold touchedState
  exact metaInv_transfer (bumpIfFlushed diskOk s h) _ (fun p hp => hp)
    (sizePres_aupdate (touchStats now) (fun e => ⟨rfl, rfl⟩)
      (bumpIfFlushed diskOk s h).heap h.id)
    (bumpIfFlushed_metaInv diskOk s h hinv)

theorem evictFile_metaInv (s : EngineState) (path : String)
    (hinv : MetaInv s) : MetaInv (evictFile s path) := by
  obtain ⟨g1, _, _, _, _, g6⟩ := evictFile_fields s path
  exact metaInv_transfer s (evictFile s path) g6
    (by rw [g1]; exact sizeShape_refl s.heap) hinv

theorem flushCache_metaInv (diskOk : String → Bool) (s : EngineState)
    (hinv : MetaInv s) : MetaInv (flushCache diskOk s) := by
  rw [flushCache_eq]
  exact hinv

theorem setPrio_metaInv (sc : CacheEntry → ℚ) (s : EngineState)
    (extension : String) (priority : ℚ) (hinv : MetaInv s) :
    MetaInv (setFileTypePriority sc s extension priority) := by
  unfold setFileTypePriority
  have hsh := foldHeapUpdate_shape (rescoreIfType sc (normExt extension))
    (rescoreIfType_sizePres sc (normExt extension)) s.cacheMap
    { s with fileTypePriorities := ainsert s.fileTypePriorities (normExt extension) (max 0 (min 1 priority)) }
  have hfl := foldHeapUpdate_onlyHeap (rescoreIfType sc (normExt extension))
    s.cacheMap
    { s with fileTypePriorities := ainsert s.fileTypePriorities (normExt extension) (max 0 (min 1 priority)) }
  exact metaInv_transfer s _ (fun p hp => hfl.2.2.2.1 ▸ hp) hsh hinv

theorem fileWrite_fileSize (sc : CacheEntry → ℚ) (s : EngineState)
    (h : Handle) (buf : List Char) (size count : Nat) (e : CacheEntry)
    (he : alookup s.heap h.id = some e) :
    ∀ e2, alookup (fileWrite sc s h buf size count).state.heap h.id =
        some e2 → e2.fileSize = e.fileSize := by
  intro e2 he2
  unfold fileWrite at he2
  by_cases hperm : (modeHas h.mode 'w' = true ∨ modeHas h.mode 'a' = true)
  · rw [if_neg (fun hc => hc hperm)] at he2
    simp only [he, Option.getD_some] at he2
    by_cases happ : (modeHas h.mode 'a' = true ∧ h.position ≠ e.data.length)
    · rw [if_pos happ] at he2
      split at he2 <;> rename_i hg
      · obtain ⟨e1, he1, hfs, hdata⟩ := sizeShape_lookup
          (makeRoom_fields sc s _).1 he
        unfold fileWriteGrow at he2
        simp only [he1, Option.getD_some] at he2
        rw [alookup_aupdate, if_pos rfl, he1] at he2
        simp only [Option.map_some'] at he2
        rw [← Option.some.inj he2]
        exact hfs
      · unfold fileWriteNoGrow at he2
        rw [alookup_aupdate, if_pos rfl, he] at he2
        simp only [Option.map_some'] at he2
        rw [← Option.some.inj he2]
    · rw [if_neg happ] at he2
      split at he2 <;> rename_i hg
      · obtain ⟨e1, he1, hfs, hdata⟩ := sizeShape_lookup
          (makeRoom_fields sc s _).1 he
        unfold fileWriteGrow at he2
        simp only [he1, Option.getD_some] at he2
        rw [alookup_aupdate, if_pos rfl, he1] at he2
        simp only [Option.map_some'] at he2
        rw [← Option.some.inj he2]
        exact hfs
      · unfold fileWriteNoGrow at he2
        rw [alookup_aupdate, if_pos rfl, he] at he2
        simp only [Option.map_some'] at he2
        rw [← Option.some.inj he2]
  · rw [if_pos hperm] at he2
    rw [he] at he2
    rw [← Option.some.inj he2]

theorem stepOp_metaInv (s : EngineState) (op : Op) (hinv : MetaInv s)
    (hw : op.isWriteOp = false) : MetaInv (stepOp s op) := by
  cases op with
  | openOp sc now disk readOk path mode =>
    exact openFile_metaInv sc now disk readOk s path mode hinv
  | closeOp sc now diskOk h => exact closeFile_metaInv sc now diskOk s h hinv
  | writeOp sc h buf size count => simp [Op.isWriteOp] at hw
  | evictOp path => exact evictFile_metaInv s path hinv
  | flushOp diskOk => exact flushCache_metaInv diskOk s hinv
  | setPrioOp sc extension priority =>
    exact setPrio_metaInv sc s extension priority hinv

theorem runOps_metaInv (s : EngineState) (ops : List Op) (hinv : MetaInv s)
    (hw : ∀ op ∈ ops, op.isWriteOp = false) : MetaInv (runOps s ops) := by
  induction ops generalizing s with
  | nil => exact hinv
  | cons op rest ih =>
    exact ih (stepOp s op)
      (stepOp_metaInv s op hinv (hw op (List.mem_cons_self _ _)))
      (fun o ho => hw o (List.mem_cons_of_mem _ ho))


/-- C3 (amended): `metadata.size = data.length` holds for every resident
entry in every state reachable from a state satisfying it by any sequence
of `open`, `close`, `evict`, `flush` and `set_type_priority`; a handle
`write`, however, never updates `metadata.fileSize` — even when it grows
the buffer — so the equality survives a write only if the buffer length
did not change. -/
theorem metadata_size_admission_and_write :
    (∀ s ops, MetaInv s → (∀ op ∈ ops, op.isWriteOp = false) →
      MetaInv (runOps s ops)) ∧
    (∀ sc s h buf size count e, alookup s.heap h.id = some e →
      ∀ e2, alookup (fileWrite sc s h buf size count).state.heap h.id =
          some e2 → e2.fileSize = e.fileSize) :=
  ⟨fun s ops hinv hw => runOps_metaInv s ops hinv hw,
   fun sc s h buf size count e he e2 he2 =>
     fileWrite_fileSize sc s h buf size count e he e2 he2⟩

/-- Witness for C3 (amended): the invariant holds after a concrete
open/evict/flush trace from an empty cache. -/
theorem metadata_size_admission_and_write_witness :
    MetaInv (runOps (emptyState 10)
      [Op.openOp zeroScore 0 noDisk allOk "a" "w", Op.evictOp "a",
       Op.flushOp allOk]) :=
  metadata_size_admission_and_write.1 (emptyState 10)
    [Op.openOp zeroScore 0 noDisk allOk "a" "w", Op.evictOp "a",
     Op.flushOp allOk]
    (fun p hp => absurd hp (List.not_mem_nil p)) (by decide)


end ContentCache
